import Mathlib

/-!
Verification development for the askai_backstage_plugin RAG backend.

The definitions below are a shallow embedding of the TypeScript sources:
the chunking pipeline (DocumentProcessor.chunkDocument), the Ollama
embedding client (OllamaLLMService.generateEmbeddings), the two vector
stores (InMemoryVectorStore, PgVectorStore), the retrieval strategy
(SimpleRAGStrategy) and the orchestration service (RAGService).
JavaScript numbers appearing in index arithmetic are modelled as integers,
vector components as real numbers, fallible methods as Except values, and
the while loop of the chunker through an explicit fuel parameter so that
its divergence on a non-positive stride is itself expressible.
-/

/-- Words of a chunk joined by a single space, embedding the JavaScript
expression chunkWords.join(' ') from DocumentProcessor.chunkDocument. -/
def joinSpace : List String → String
  | [] => ""
  | [w] => w
  | w :: ws => w ++ " " ++ joinSpace ws

/-- JavaScript Array.prototype.slice with integer endpoints: negative
endpoints count from the end of the array and both endpoints are clamped
to the array bounds. Used by chunkDocument as words.slice(currentIndex,
currentIndex + chunkSize). -/
def jsSlice {α : Type} (l : List α) (start stop : ℤ) : List α :=
  let len : ℤ := l.length
  let s : ℤ := if start < 0 then max (len + start) 0 else min start len
  let e : ℤ := if stop < 0 then max (len + stop) 0 else min stop len
  (l.drop s.toNat).take (e - s).toNat

/-- JavaScript String.prototype.trim: drop whitespace characters from both
ends of the string, embedded on the underlying character list. -/
def jsTrim (s : String) : String :=
  String.mk (((s.data.dropWhile Char.isWhitespace).reverse.dropWhile Char.isWhitespace).reverse)

/-- Accumulator-based splitting of a character list at whitespace runs;
the auxiliary of splitWhitespace. -/
def splitSpacesAux : List Char → List Char → List (List Char)
  | [], acc => if acc.isEmpty then [] else [acc.reverse]
  | c :: cs, acc =>
    if c.isWhitespace then
      (if acc.isEmpty then splitSpacesAux cs [] else acc.reverse :: splitSpacesAux cs [])
    else splitSpacesAux cs (c :: acc)

/-- Splitting a string into its maximal whitespace-free words, the reading
of a chunk's content back as a word sequence (JavaScript split on a
whitespace run). -/
def splitWhitespace (s : String) : List String :=
  (splitSpacesAux s.data []).map String.mk

/-- Metadata block of a DocumentChunk (models/index.ts). -/
structure ChunkMeta where
  source : String
  chunkIndex : ℕ
  totalChunks : ℕ
deriving DecidableEq

/-- DocumentChunk record from models/index.ts. -/
structure DocumentChunk where
  id : String
  entityId : String
  entityName : String
  content : String
  metadata : ChunkMeta
deriving DecidableEq

/-- One iteration body of the while loop of DocumentProcessor.chunkDocument
(lines 69-91): slice a window of chunkSize words at currentIndex, push a
chunk when the joined content is nonempty after trimming, and advance the
index by chunkSize - chunkOverlap. The fuel argument bounds the number of
iterations; the source loop has no such bound, so a run that exhausts any
amount of fuel (result none) is a diverging run of the source loop. -/
def chunkLoop (words : List String) (chunkSize chunkOverlap : ℕ)
    (entityId entityName source : String) :
    ℕ → ℤ → ℕ → List DocumentChunk → Option (List DocumentChunk)
  | 0, currentIndex, _, chunks =>
    if currentIndex < (words.length : ℤ) then none else some chunks
  | f + 1, currentIndex, chunkIndex, chunks =>
    if currentIndex < (words.length : ℤ) then
      let chunkWords := jsSlice words currentIndex (currentIndex + (chunkSize : ℤ))
      let chunkContent := joinSpace chunkWords
      let nextIndex := currentIndex + ((chunkSize : ℤ) - (chunkOverlap : ℤ))
      if 0 < (jsTrim chunkContent).length then
        chunkLoop words chunkSize chunkOverlap entityId entityName source f nextIndex
          (chunkIndex + 1)
          (chunks ++ [{ id := entityId ++ "-" ++ source ++ "-" ++ toString chunkIndex,
                        entityId := entityId, entityName := entityName,
                        content := chunkContent,
                        metadata := { source := source, chunkIndex := chunkIndex,
                                      totalChunks := 0 } }])
      else
        chunkLoop words chunkSize chunkOverlap entityId entityName source f nextIndex
          chunkIndex chunks
    else some chunks

/-- DocumentProcessor.chunkDocument from the word list produced by
splitting the normalized content (line 64): run the window loop from index
0, then back-fill every chunk's totalChunks with the final count (lines
93-96). Fuel words.length suffices whenever the stride is positive; a
none result means the source loop diverges. -/
def chunkDocumentWords (words : List String) (chunkSize chunkOverlap : ℕ)
    (entityId entityName source : String) : Option (List DocumentChunk) :=
  match chunkLoop words chunkSize chunkOverlap entityId entityName source
      words.length 0 0 [] with
  | none => none
  | some cs =>
    some (cs.map fun c =>
      { c with metadata := { c.metadata with totalChunks := cs.length } })

/-- Payload of the Ollama embed endpoint as seen by the client: the
embeddings field is none when the JSON field is absent, null, or not an
array (the two rejection cases of OllamaLLMService.generateEmbeddings);
any actual array, empty or not, is some. -/
structure OllamaEmbedPayload where
  embeddings : Option (List (List ℝ))

/-- Outcome of the fetch call to the Ollama embed endpoint: a network
failure, a non-success HTTP status with its body, or a parsed payload. -/
inductive OllamaFetchResult where
  | networkError (message : String)
  | httpError (status : ℕ) (body : String)
  | success (payload : OllamaEmbedPayload)

/-- OllamaLLMService.generateEmbeddings: reject a failed upstream call or
a payload whose embeddings field is missing or not an array, and return
the embeddings array unchanged otherwise. The catch block rewraps every
error message, which the model mirrors with a fixed prefix. -/
def generateEmbeddings (inputs : List String) (resp : OllamaFetchResult) :
    Except String (List (List ℝ)) :=
  match resp with
  | .networkError message =>
    .error ("Embedding generation failed: " ++ message)
  | .httpError status body =>
    .error ("Embedding generation failed: Ollama API error (" ++ toString status ++ "): " ++ body)
  | .success payload =>
    match payload.embeddings with
    | none => .error "Embedding generation failed: Invalid embeddings response format from Ollama"
    | some es => .ok es

/-- Mutable indexing state of RAGService (fields indexingInProgress and
lastIndexTime, lines 46-47 of the service source); time instants are
abstracted as naturals. -/
structure RAGState where
  indexingInProgress : Bool
  lastIndexTime : Option ℕ
deriving DecidableEq

/-- Observable effects of one indexAllDocuments call; clearStore,
fetchAllEntities and storeBatchCall are the effects the delegated
SimpleRAGStrategy.indexAll issues against its collaborators. -/
inductive IndexEffect where
  | logWarnSkip
  | logInfoStart
  | clearStore
  | fetchAllEntities
  | storeBatchCall (batch : ℕ)
  | logError (message : String)
deriving DecidableEq

/-- Outcome of the awaited strategy.indexAll() call, abstracting the
injected strategy collaborator. -/
inductive RunOutcome where
  | success
  | failure (message : String)

/-- Result of one RAGService.indexAllDocuments call: the returned or
thrown value, the service state while the awaited strategy call is in
flight, the service state after the call returns, and the effect trace. -/
structure IndexAllRun where
  result : Except String Unit
  stateDuring : RAGState
  stateAfter : RAGState
  effects : List IndexEffect

/-- RAGService.indexAllDocuments (lines 59-77): a call that finds
indexingInProgress already true logs a warning and returns immediately;
otherwise the flag is raised, strategy.indexAll() runs, lastIndexTime is
updated only when it succeeds, the error is logged and rethrown when it
fails, and the finally block lowers the flag in both cases.
strategyEffects abstracts the effect trace of the injected strategy run
and now the completion instant. -/
def indexAllDocuments (s : RAGState) (outcome : RunOutcome)
    (strategyEffects : List IndexEffect) (now : ℕ) : IndexAllRun :=
  if s.indexingInProgress then
    { result := .ok (), stateDuring := s, stateAfter := s, effects := [.logWarnSkip] }
  else
    match outcome with
    | .success =>
      { result := .ok ()
        stateDuring := { indexingInProgress := true, lastIndexTime := s.lastIndexTime }
        stateAfter := { indexingInProgress := false, lastIndexTime := some now }
        effects := .logInfoStart :: strategyEffects }
    | .failure message =>
      { result := .error message
        stateDuring := { indexingInProgress := true, lastIndexTime := s.lastIndexTime }
        stateAfter := { indexingInProgress := false, lastIndexTime := s.lastIndexTime }
        effects := .logInfoStart :: strategyEffects ++ [.logError message] }

/-- Process-wide scheduling state for full-index runs: the guard flag of
RAGService and the number of strategy.indexAll runs currently in flight. -/
structure SchedState where
  flag : Bool
  active : ℕ
deriving DecidableEq

/-- Event-loop transitions of the single-flight guard: the prologue of
indexAllDocuments (check of indexingInProgress and raising it) runs as
one synchronous segment, so a trigger either starts a run (flag was
false) or is a no-op (flag was true); a finish ends one in-flight run and
lowers the flag in the finally block. -/
inductive SchedStep : SchedState → SchedState → Prop where
  | triggerStart (s : SchedState) (h : s.flag = false) :
      SchedStep s { flag := true, active := s.active + 1 }
  | triggerSkip (s : SchedState) (h : s.flag = true) : SchedStep s s
  | finish (s : SchedState) (h : 1 ≤ s.active) :
      SchedStep s { flag := false, active := s.active - 1 }

/-- States reachable from process start (no run in flight). -/
inductive SchedReachable : SchedState → Prop where
  | init : SchedReachable { flag := false, active := 0 }
  | step {s t : SchedState} (hs : SchedReachable s) (h : SchedStep s t) : SchedReachable t

/-- Status record returned by RAGService.getIndexingStatus. -/
structure IndexingStatus where
  inProgress : Bool
  lastIndexTime : Option ℕ
  vectorCount : ℕ

/-- RAGService.getIndexingStatus (lines 143-153): reports the guard flag
and last index time from the service state and hardcodes vectorCount to 0;
the storeContents argument is the actual content of the injected vector
store, which the method never consults. -/
def getIndexingStatus (s : RAGState) (storeContents : List (List ℝ)) : IndexingStatus :=
  { inProgress := s.indexingInProgress
    lastIndexTime := s.lastIndexTime
    vectorCount := 0 }

/-- EmbeddingVector record from models/index.ts. -/
structure EmbeddingVector where
  id : String
  chunkId : String
  vector : List ℝ
  documentChunk : DocumentChunk

/-- SearchResult record from models/index.ts. -/
structure SearchResult where
  documentChunk : DocumentChunk
  similarity : ℝ

/-- One row of the embeddings table (migrations/001_initial_schema.sql):
the nine columns written by PgVectorStore.store/storeBatch. -/
structure PgRow where
  id : String
  chunkId : String
  entityId : String
  entityName : String
  vector : List ℝ
  content : String
  source : String
  chunkIndex : ℕ
  totalChunks : ℕ

/-- Column values the INSERT statement of store/storeBatch binds from one
EmbeddingVector (lines 302-312 and 356-366 of PgVectorStore). -/
def toRow (e : EmbeddingVector) : PgRow :=
  { id := e.id
    chunkId := e.chunkId
    entityId := e.documentChunk.entityId
    entityName := e.documentChunk.entityName
    vector := e.vector
    content := e.documentChunk.content
    source := e.documentChunk.metadata.source
    chunkIndex := e.documentChunk.metadata.chunkIndex
    totalChunks := e.documentChunk.metadata.totalChunks }

/-- Table constraints of the embeddings schema that an INSERT can violate:
the CHECK constraint source IN ('catalog', 'techdocs') and the fixed
dimension 384 of the vector column. -/
def rowOK (r : PgRow) : Bool :=
  (r.source = "catalog" || r.source = "techdocs") && r.vector.length = 384

/-- Upsert of one row keyed on the UNIQUE(entity_id, chunk_id) constraint:
ON CONFLICT the conflicting row's payload columns are overwritten,
otherwise the row is appended. -/
def upsertRow (table : List PgRow) (r : PgRow) : List PgRow :=
  if table.any fun q => q.entityId = r.entityId && q.chunkId = r.chunkId then
    table.map fun q =>
      if q.entityId = r.entityId && q.chunkId = r.chunkId then
        { q with vector := r.vector, content := r.content, entityName := r.entityName,
                 source := r.source, chunkIndex := r.chunkIndex, totalChunks := r.totalChunks }
      else q
  else table ++ [r]

/-- One PostgreSQL connection as the store sees it: the committed table
and, when a transaction is open, the transaction's working snapshot. -/
structure PgConn where
  table : List PgRow
  txn : Option (List PgRow)

/-- BEGIN: open a transaction whose working snapshot starts from the
committed table. -/
def execBegin (c : PgConn) : PgConn :=
  { c with txn := some c.table }

/-- COMMIT: promote the transaction snapshot to the committed table. -/
def execCommit (c : PgConn) : PgConn :=
  match c.txn with
  | some t => { table := t, txn := none }
  | none => c

/-- ROLLBACK: discard the transaction snapshot, leaving the committed
table as it was. -/
def execRollback (c : PgConn) : PgConn :=
  { c with txn := none }

/-- Execution of one parameterized INSERT ... ON CONFLICT DO UPDATE
statement: the row constraints are checked and the upsert is applied to
the transaction snapshot when one is open, else to the table directly. -/
def execInsert (c : PgConn) (e : EmbeddingVector) : Except String PgConn :=
  if rowOK (toRow e) then
    match c.txn with
    | some t => .ok { c with txn := some (upsertRow t (toRow e)) }
    | none => .ok { c with table := upsertRow c.table (toRow e) }
  else .error "insert or update on table embeddings violates a constraint"

/-- The for loop of storeBatch (lines 355-369): execute the INSERT for
each embedding in order, stopping at the first failure. -/
def insertLoop (c : PgConn) : List EmbeddingVector → Except String PgConn
  | [] => .ok c
  | e :: es =>
    match execInsert c e with
    | .ok c2 => insertLoop c2 es
    | .error msg => .error msg

/-- Connection-pool and initialization state of PgVectorStore together
with the database table it talks to. -/
structure PgStore where
  initialized : Bool
  poolOpen : Bool
  table : List PgRow

/-- Error message of ensureInitialized (PgVectorStore lines 580-584). -/
def notInitMsg : String := "PgVectorStore not initialized. Call initialize() first."

/-- Error raised by the pg Pool when a connection is requested after
pool.end(). -/
def poolEndedMsg : String := "Cannot use a pool after calling end on the pool"

/-- The ensureInitialized guard: throws when the initialized flag is not
set. -/
def ensureInitializedCheck (st : PgStore) : Except String Unit :=
  if st.initialized then .ok () else .error notInitMsg

/-- pool.connect(): fails once the pool has been ended by close(). -/
def poolConnect (st : PgStore) : Except String Unit :=
  if st.poolOpen then .ok () else .error poolEndedMsg

/-- PgVectorStore.storeBatch (lines 328-380): ensureInitialized, early
return on an empty batch, connect, BEGIN, one INSERT per embedding,
COMMIT; on any failure ROLLBACK and rethrow. Returns the thrown or ok
value together with the store afterwards. -/
def PgVectorStore.storeBatch (st : PgStore) (embeddings : List EmbeddingVector) :
    Except String Unit × PgStore :=
  match ensureInitializedCheck st with
  | .error msg => (.error msg, st)
  | .ok _ =>
    if embeddings.isEmpty then (.ok (), st)
    else
      match poolConnect st with
      | .error msg => (.error msg, st)
      | .ok _ =>
        let c := execBegin { table := st.table, txn := none }
        match insertLoop c embeddings with
        | .ok c2 => (.ok (), { st with table := (execCommit c2).table })
        | .error msg => (.error msg, { st with table := (execRollback c).table })

/-- PgVectorStore.store (lines 281-322): ensureInitialized, connect, one
INSERT without a transaction, rethrow on failure. -/
def PgVectorStore.store (st : PgStore) (e : EmbeddingVector) :
    Except String Unit × PgStore :=
  match ensureInitializedCheck st with
  | .error msg => (.error msg, st)
  | .ok _ =>
    match poolConnect st with
    | .error msg => (.error msg, st)
    | .ok _ =>
      match execInsert { table := st.table, txn := none } e with
      | .ok c2 => (.ok (), { st with table := c2.table })
      | .error msg => (.error msg, st)

/-- PgVectorStore.clear (lines 451-484): ensureInitialized, connect,
DELETE all rows or the rows of one entity. -/
def PgVectorStore.clear (st : PgStore) (entityId : Option String) :
    Except String Unit × PgStore :=
  match ensureInitializedCheck st with
  | .error msg => (.error msg, st)
  | .ok _ =>
    match poolConnect st with
    | .error msg => (.error msg, st)
    | .ok _ =>
      match entityId with
      | some eid => (.ok (), { st with table := st.table.filter fun r => r.entityId ≠ eid })
      | none => (.ok (), { st with table := [] })

/-- PgVectorStore.count (lines 489-515): ensureInitialized, connect,
SELECT COUNT(*), optionally filtered by entity. -/
def PgVectorStore.count (st : PgStore) (entityId : Option String) : Except String ℕ :=
  match ensureInitializedCheck st with
  | .error msg => .error msg
  | .ok _ =>
    match poolConnect st with
    | .error msg => .error msg
    | .ok _ =>
      match entityId with
      | some eid => .ok (st.table.filter fun r => r.entityId = eid).length
      | none => .ok st.table.length

/-- PgVectorStore.close (lines 560-568): end the connection pool. The
initialized flag is left untouched. -/
def PgVectorStore.close (st : PgStore) : PgStore :=
  { st with poolOpen := false }

/-- PgVectorStore.initialize (lines 197-221): a no-op once initialized;
otherwise the connection test, pgvector check and schema check run over a
pooled connection, after which the initialized flag is set. The pgvector
and schema checks hold in any store reachable through the factory (the
migration created them), so they are modelled as succeeding whenever a
connection can be obtained. -/
def PgVectorStore.initStore (st : PgStore) : Except String PgStore :=
  if st.initialized then .ok st
  else
    match poolConnect st with
    | .error msg => .error ("PgVectorStore initialization failed: " ++ msg)
    | .ok _ => .ok { st with initialized := true }

/-- Catalog entity as the strategy consumes it: its reference and name. -/
structure CatalogEntity where
  ref : String
  name : String

/-- Constructor-injected collaborators of SimpleRAGStrategy, as behavior
functions: the catalog collector, document processor, TechDocs collector,
LLM service and vector store. -/
structure StrategyDeps where
  fetchEntity : String → Except String CatalogEntity
  extractEntityContent : CatalogEntity → String
  chunkDocument : String → String → String → String → List DocumentChunk
  hasDocumentation : String → Except String Bool
  fetchDocumentation : String → Except String (Option String)
  embedTexts : List String → Except String (List (List ℝ))
  vectorStoreBatch : List EmbeddingVector → Except String Unit

/-- The body of the try block of SimpleRAGStrategy.indexEntityInternal
(lines 87-132): chunk the catalog content, chunk the TechDocs content
when present, return early when no chunks were created, embed all chunk
texts in one batched call, build the EmbeddingVectors by positional
alignment and store the batch. -/
def indexEntityBody (d : StrategyDeps) (entity : CatalogEntity) : Except String Unit := do
  let entityRef := entity.ref
  let catalogContent := d.extractEntityContent entity
  let catalogChunks := d.chunkDocument catalogContent entityRef entity.name "catalog"
  let hasDocs ← d.hasDocumentation entityRef
  let docChunks ←
    if hasDocs then do
      let documentation ← d.fetchDocumentation entityRef
      match documentation with
      | some text => pure (d.chunkDocument text entityRef entity.name "techdocs")
      | none => pure []
    else pure []
  let allChunks := catalogChunks ++ docChunks
  if allChunks.isEmpty then
    pure ()
  else do
    let chunkTexts := allChunks.map fun c => c.content
    let embeddings ← d.embedTexts chunkTexts
    let embeddingVectors := (allChunks.enum).map fun p =>
      { id := p.2.id, chunkId := p.2.id,
        vector := (embeddings.get? p.1).getD [],
        documentChunk := p.2 : EmbeddingVector }
    d.vectorStoreBatch embeddingVectors

/-- SimpleRAGStrategy.indexEntityInternal (lines 82-137): the try block
body wrapped in the catch that logs the failure and continues, so every
error of the body is swallowed and the call resolves. -/
def indexEntityInternal (d : StrategyDeps) (entity : CatalogEntity) : Except String Unit :=
  match indexEntityBody d entity with
  | .ok _ => .ok ()
  | .error _ => .ok ()

/-- SimpleRAGStrategy.indexEntity (lines 76-80): fetch the entity by
reference, then run the shared per-entity indexing helper. -/
def SimpleRAGStrategy.indexEntity (d : StrategyDeps) (entityRef : String) :
    Except String Unit := do
  let entity ← d.fetchEntity entityRef
  indexEntityInternal d entity

/-- RAGService.indexEntity (lines 82-89): delegate to the strategy,
logging and rethrowing any error the strategy raises. -/
def RAGService.indexEntity (d : StrategyDeps) (entityRef : String) : Except String Unit :=
  match SimpleRAGStrategy.indexEntity d entityRef with
  | .ok _ => .ok ()
  | .error msg => .error msg

/-- Concrete collaborator set in which the embedding call always fails
with a provider error while everything upstream of it succeeds: the
catalog has one entity with nonempty content producing one chunk. -/
def failingEmbedDeps : StrategyDeps :=
  { fetchEntity := fun ref => .ok { ref := ref, name := "sample" }
    extractEntityContent := fun _ => "Entity: sample"
    chunkDocument := fun content entityRef entityName source =>
      [{ id := entityRef ++ "-" ++ source ++ "-0", entityId := entityRef,
         entityName := entityName, content := content,
         metadata := { source := source, chunkIndex := 0, totalChunks := 1 } }]
    hasDocumentation := fun _ => .ok false
    fetchDocumentation := fun _ => .ok none
    embedTexts := fun _ => .error "Embedding generation failed: Ollama API error (500): boom"
    vectorStoreBatch := fun _ => .ok () }

/-- The accumulation loop of InMemoryVectorStore.cosineSimilarity (lines
399-407) specialised to the dot product: sum of componentwise products,
truncated at the shorter list (the method first checks equal lengths). -/
def dotProduct : List ℝ → List ℝ → ℝ
  | a :: as, b :: bs => a * b + dotProduct as bs
  | _, _ => 0

/-- The cosine similarity value computed by InMemoryVectorStore (lines
399-415): dot product over the product of the square-rooted squared
norms, with a 0 result when the denominator is 0. -/
noncomputable def cosineSimVal (a b : List ℝ) : ℝ :=
  let denominator := Real.sqrt (dotProduct a a) * Real.sqrt (dotProduct b b)
  if denominator = 0 then 0 else dotProduct a b / denominator

/-- InMemoryVectorStore.cosineSimilarity (lines 394-416): throws when the
vectors differ in length, otherwise returns the cosine similarity. -/
noncomputable def InMemoryVectorStore.cosineSimilarity (a b : List ℝ) : Except String ℝ :=
  if a.length ≠ b.length then .error "Vectors must have the same length"
  else .ok (cosineSimVal a b)

/-- The result-building for loop of InMemoryVectorStore.search (lines
362-368): compute the similarity of every candidate in order, throwing
out of the whole search at the first dimension mismatch. -/
noncomputable def computeSims (queryVector : List ℝ) :
    List EmbeddingVector → Except String (List SearchResult)
  | [] => .ok []
  | emb :: rest =>
    match InMemoryVectorStore.cosineSimilarity queryVector emb.vector with
    | .error msg => .error msg
    | .ok sim =>
      match computeSims queryVector rest with
      | .error msg => .error msg
      | .ok results => .ok ({ documentChunk := emb.documentChunk, similarity := sim } :: results)

/-- Descending-similarity order used by the sort comparator
(a, b) =&gt; b.similarity - a.similarity of InMemoryVectorStore.search. -/
def simDesc (a b : SearchResult) : Prop := b.similarity ≤ a.similarity

noncomputable instance : DecidableRel simDesc := fun a b =>
  Real.decidableLE b.similarity a.similarity

instance : IsTotal SearchResult simDesc :=
  ⟨fun a b => le_total b.similarity a.similarity⟩

instance : IsTrans SearchResult simDesc :=
  ⟨fun _ _ _ h1 h2 => le_trans h2 h1⟩

/-- InMemoryVectorStore.search (lines 353-379): filter the stored vectors
by entityId when given, compute every cosine similarity, sort descending
by similarity and return the first topK results. The vectors argument is
the value list of the backing map. -/
noncomputable def InMemoryVectorStore.search (vectors : List EmbeddingVector)
    (queryVector : List ℝ) (topK : ℕ) (entityId : Option String) :
    Except String (List SearchResult) :=
  let vectorsToSearch :=
    match entityId with
    | some eid => vectors.filter fun v => v.documentChunk.entityId = eid
    | none => vectors
  match computeSims queryVector vectorsToSearch with
  | .error msg => .error msg
  | .ok results => .ok ((results.insertionSort simDesc).take topK)

/-- Cosine distance of the pgvector operator used in the ranked query of
PgVectorStore.search. pgvector computes 1 - cosine similarity; the
division-by-zero case of a zero-norm vector is mapped to the same
0-similarity convention as the in-memory variant, matching the numeric
semantics the specification fixes for both backends. -/
noncomputable def pgCosineDistance (a b : List ℝ) : ℝ := 1 - cosineSimVal a b

/-- SearchResult built from one returned row of the ranked query of
PgVectorStore.search (lines 420-433), whose similarity column is
1 - (vector <=> query). -/
noncomputable def pgRowResult (queryVector : List ℝ) (r : PgRow) : SearchResult :=
  { documentChunk :=
      { id := r.id, entityId := r.entityId, entityName := r.entityName,
        content := r.content,
        metadata := { source := r.source, chunkIndex := r.chunkIndex,
                      totalChunks := r.totalChunks } }
    similarity := 1 - pgCosineDistance queryVector r.vector }

/-- Ascending-distance order of the ORDER BY vector <=> $1 clause. -/
def distAsc (queryVector : List ℝ) (r1 r2 : PgRow) : Prop :=
  pgCosineDistance queryVector r1.vector ≤ pgCosineDistance queryVector r2.vector

/-- The ranked SQL query of PgVectorStore.search (lines 395-416): filter
by entity_id when the parameter is non-null, order by cosine distance
ascending, limit to topK and report similarity 1 - distance per row. -/
noncomputable def PgVectorStore.searchRows (table : List PgRow) (queryVector : List ℝ)
    (topK : ℕ) (entityId : Option String) : List SearchResult :=
  let rows : List PgRow :=
    match entityId with
    | some eid => table.filter fun r => r.entityId = eid
    | none => table
  letI : DecidableRel (distAsc queryVector) := fun r1 r2 =>
    Real.decidableLE (pgCosineDistance queryVector r1.vector)
      (pgCosineDistance queryVector r2.vector)
  ((rows.insertionSort (distAsc queryVector)).take topK).map (pgRowResult queryVector)

/-- PgVectorStore.search (lines 386-446): ensureInitialized, connect,
then the ranked query. -/
noncomputable def PgVectorStore.search (st : PgStore) (queryVector : List ℝ)
    (topK : ℕ) (entityId : Option String) : Except String (List SearchResult) :=
  match ensureInitializedCheck st with
  | .error msg => .error msg
  | .ok _ =>
    match poolConnect st with
    | .error msg => .error msg
    | .ok _ => .ok (PgVectorStore.searchRows st.table queryVector topK entityId)

/-- PostgreSQL connection settings (models/index.ts). -/
structure PostgresConfig where
  host : String
  port : ℕ
  database : String
  user : String
  password : String
  ssl : Bool
  maxConnections : ℕ
  idleTimeoutMillis : ℕ
  connectionTimeoutMillis : ℕ
deriving DecidableEq

/-- Discriminated vector-store configuration (models/index.ts). -/
inductive VectorStoreConfig where
  | memory
  | postgresql (cfg : PostgresConfig)
deriving DecidableEq

/-- Resolved plugin configuration (AskAiConfig in models/index.ts). -/
structure AskAiConfig where
  defaultModel : String
  embeddingModel : String
  ollamaBaseUrl : String
  ragEnabled : Bool
  ragStrategy : String
  defaultTopK : ℕ
  chunkSize : ℕ
  chunkOverlap : ℕ
  vectorStore : VectorStoreConfig
deriving DecidableEq

/-- Raw optional values read from the Backstage Config object by
ConfigService.loadConfig; a none field models an absent key. -/
structure RawAskAiConfig where
  defaultModel : Option String := none
  embeddingModel : Option String := none
  ollamaBaseUrl : Option String := none
  ragEnabled : Option Bool := none
  ragStrategy : Option String := none
  defaultTopK : Option ℕ := none
  chunkSize : Option ℕ := none
  chunkOverlap : Option ℕ := none
  vectorStoreType : Option String := none
  pgHost : Option String := none
  pgPort : Option ℕ := none
  pgDatabase : Option String := none
  pgUser : Option String := none
  pgPassword : Option String := none
  pgSsl : Option Bool := none
  pgMaxConnections : Option ℕ := none
  pgIdleTimeoutMillis : Option ℕ := none
  pgConnectionTimeoutMillis : Option ℕ := none

/-- JavaScript value || default on an optional number: absent and 0 (the
falsy number) both fall back to the default. -/
def orNum (v : Option ℕ) (d : ℕ) : ℕ :=
  match v with
  | some n => if n = 0 then d else n
  | none => d

/-- JavaScript value || default on an optional string: absent and the
empty (falsy) string both fall back to the default. -/
def orStr (v : Option String) (d : String) : String :=
  match v with
  | some s => if s = "" then d else s
  | none => d

/-- ConfigService.loadPostgresConfig (lines 235-262): defaults for every
field, then the validation that rejects an empty password. -/
def loadPostgresConfig (raw : RawAskAiConfig) : Except String PostgresConfig :=
  let password := orStr raw.pgPassword ""
  if password = "" then
    .error "PostgreSQL password is required when using postgresql vector store"
  else
    .ok { host := orStr raw.pgHost "localhost"
          port := orNum raw.pgPort 5432
          database := orStr raw.pgDatabase "backstage_vectors"
          user := orStr raw.pgUser "backstage"
          password := password
          ssl := raw.pgSsl.getD false
          maxConnections := orNum raw.pgMaxConnections 10
          idleTimeoutMillis := orNum raw.pgIdleTimeoutMillis 30000
          connectionTimeoutMillis := orNum raw.pgConnectionTimeoutMillis 5000 }

/-- ConfigService.loadVectorStoreConfig (lines 216-230): postgresql when
the type key says so, otherwise the in-memory default. -/
def loadVectorStoreConfig (raw : RawAskAiConfig) : Except String VectorStoreConfig :=
  if raw.vectorStoreType = some "postgresql" then
    match loadPostgresConfig raw with
    | .error msg => .error msg
    | .ok cfg => .ok (.postgresql cfg)
  else .ok .memory

/-- ConfigService.loadConfig (lines 199-211): resolve every key with its
default. The only validation anywhere in loading is the postgresql
password check; chunkSize and chunkOverlap are accepted as read. -/
def loadConfig (raw : RawAskAiConfig) : Except String AskAiConfig :=
  match loadVectorStoreConfig raw with
  | .error msg => .error msg
  | .ok vs =>
    .ok { defaultModel := orStr raw.defaultModel "llama3.2"
          embeddingModel := orStr raw.embeddingModel "all-minilm"
          ollamaBaseUrl := orStr raw.ollamaBaseUrl "http://localhost:11434"
          ragEnabled := raw.ragEnabled.getD true
          ragStrategy := orStr raw.ragStrategy "simple"
          defaultTopK := orNum raw.defaultTopK 5
          chunkSize := orNum raw.chunkSize 512
          chunkOverlap := orNum raw.chunkOverlap 50
          vectorStore := vs }

/-- Net effect of a committed storeBatch: the upserts of the batch applied
to the table in order. -/
def applyBatch (table : List PgRow) (embeddings : List EmbeddingVector) : List PgRow :=
  embeddings.foldl (fun acc e => upsertRow acc (toRow e)) table

/-- The word window of the chunk produced at loop iteration k: chunkSize
words starting at index k * (chunkSize - chunkOverlap). -/
def windowAt (words : List String) (chunkSize stride k : ℕ) : List String :=
  (words.drop (k * stride)).take chunkSize

/-- Word lists as produced by splitting normalized nonempty content on
whitespace runs: every word is nonempty and whitespace-free. -/
def WordsWF (words : List String) : Prop :=
  ∀ w ∈ words, w ≠ "" ∧ ∀ c ∈ w.data, ¬c.isWhitespace

/-- A 384-dimensional embedding whose components are all x. -/
noncomputable def constVec (x : ℝ) : List ℝ := List.replicate 384 x

/-- One valid embedding for the batch-atomicity scenario. -/
noncomputable def validEmb (n : String) (x : ℝ) : EmbeddingVector :=
  { id := n, chunkId := "chunk-" ++ n, vector := constVec x
    documentChunk :=
      { id := "doc-" ++ n, entityId := "entity-1", entityName := "Entity 1",
        content := "Content", metadata := { source := "catalog", chunkIndex := 0, totalChunks := 1 } } }

/-- The scenario batch of the specification: two valid chunks followed by
one violating the source CHECK constraint. -/
noncomputable def badBatch : List EmbeddingVector :=
  [ validEmb "valid-1" (1/10), validEmb "valid-2" (2/10),
    { id := "invalid-1", chunkId := "chunk-invalid", vector := constVec (3/10)
      documentChunk :=
        { id := "doc-3", entityId := "entity-2", entityName := "Entity 2",
          content := "Content",
          metadata := { source := "invalid-source", chunkIndex := 0, totalChunks := 1 } } } ]

/-- A freshly initialized persistent store over an empty table. -/
def emptyOpenStore : PgStore := { initialized := true, poolOpen := true, table := [] }

/-- Raw configuration with chunkSize = chunkOverlap = 50, the degenerate
stride; every other key is absent. -/
def raw5050 : RawAskAiConfig := { chunkSize := some 50, chunkOverlap := some 50 }

/-- The resolved configuration loadConfig produces for raw5050. -/
def cfg5050 : AskAiConfig :=
  { defaultModel := "llama3.2", embeddingModel := "all-minilm",
    ollamaBaseUrl := "http://localhost:11434", ragEnabled := true,
    ragStrategy := "simple", defaultTopK := 5, chunkSize := 50,
    chunkOverlap := 50, vectorStore := .memory }

/-- A stored embedding of dimension 2 used to exercise the search
contracts on concrete inputs. -/
noncomputable def memWitnessVec : EmbeddingVector :=
  { id := "v1", chunkId := "c1", vector := [1, 0]
    documentChunk :=
      { id := "d1", entityId := "ent", entityName := "Ent", content := "text",
        metadata := { source := "catalog", chunkIndex := 0, totalChunks := 1 } } }

/-- The chunk record pushed at loop iteration k of chunkDocument when
every window is kept: its content is the joined k-th word window and its
chunkIndex is k (totalChunks still 0 before the back-fill). -/
def windowChunk (words : List String) (chunkSize chunkOverlap : ℕ)
    (entityId entityName source : String) (k : ℕ) : DocumentChunk :=
  { id := entityId ++ "-" ++ source ++ "-" ++ toString k
    entityId := entityId
    entityName := entityName
    content := joinSpace (windowAt words chunkSize (chunkSize - chunkOverlap) k)
    metadata := { source := source, chunkIndex := k, totalChunks := 0 } }

/-- Closed form of the chunk list the loop produces from iteration k on,
with the same fuel discipline as the loop. -/
def chunksSpec (words : List String) (chunkSize chunkOverlap : ℕ)
    (entityId entityName source : String) : ℕ → ℕ → List DocumentChunk
  | 0, _ => []
  | fuel + 1, k =>
    if k * (chunkSize - chunkOverlap) < words.length then
      windowChunk words chunkSize chunkOverlap entityId entityName source k ::
        chunksSpec words chunkSize chunkOverlap entityId entityName source fuel (k + 1)
    else []

/-- C10: for every service state and store content, getIndexingStatus
reports vectorCount 0; the status never reflects the stored vectors. -/
theorem C10_vectorCount_always_zero (s : RAGState) (storeContents : List (List ℝ)) :
    (getIndexingStatus s storeContents).vectorCount = 0 := rfl

/-- C3: with collaborators whose embedding call always fails while
fetching, extraction and chunking succeed, RAGService.indexEntity
resolves successfully: the provider error raised during the per-item
indexing work is swallowed by the catch of indexEntityInternal instead of
propagating to the caller. -/
theorem C3_indexEntity_swallows_embedding_error :
    RAGService.indexEntity failingEmbedDeps "component:default/sample" = .ok () := rfl

/-- C4 counterexample: an upstream payload whose embeddings array is
empty, against one input text, is returned as a successful empty result
even though the array is empty and its length differs from the number of
inputs, so generateEmbeddings does not fail on this malformed payload. -/
theorem C4_counterexample :
    generateEmbeddings ["hello"] (.success { embeddings := some [] }) = .ok [] ∧
      ([] : List (List ℝ)).length ≠ ["hello"].length := by
  exact ⟨rfl, by decide⟩

/-- C4 (amended): generateEmbeddings fails exactly when the upstream call
fails (network failure or non-success status) or the embeddings field is
missing or not an array; any actual array, including an empty one or one
whose length differs from the number of inputs, is returned unchanged. -/
theorem C4_generateEmbeddings_error_cases :
    (∀ (inputs : List String) (resp : OllamaFetchResult),
      (∃ e, generateEmbeddings inputs resp = .error e) ↔
        (match resp with
         | .networkError _ => True
         | .httpError _ _ => True
         | .success payload => payload.embeddings = none)) ∧
    (∀ (inputs : List String) (es : List (List ℝ)),
      generateEmbeddings inputs (.success { embeddings := some es }) = .ok es) := by
  constructor
  · intro inputs resp
    cases resp with
    | networkError message => simp [generateEmbeddings]
    | httpError status body => simp [generateEmbeddings]
    | success payload =>
      cases h : payload.embeddings with
      | none => simp [generateEmbeddings, h]
      | some es => simp [generateEmbeddings, h]
  · intro inputs es
    rfl

/-- Invariant of the single-flight transition system: never more than one
full-index run in flight, and none at all while the guard flag is down. -/
theorem schedInvariant {s : SchedState} (h : SchedReachable s) :
    s.active ≤ 1 ∧ (s.flag = false → s.active = 0) := by
  induction h with
  | init => exact ⟨by decide, fun _ => rfl⟩
  | step hs hstep ih =>
    cases hstep with
    | triggerStart hflag =>
      have h0 := ih.2 hflag
      exact ⟨by simp [h0], by simp⟩
    | triggerSkip hflag => exact ih
    | finish hact =>
      have h1 := ih.1
      refine ⟨?_, fun _ => ?_⟩ <;> simp <;> omega

/-- C5: a trigger of indexAllDocuments that finds indexingInProgress true
returns without error, leaves the state untouched and performs none of
the effects of a run (no clear, no fetch, no store: only the warning log);
and in every reachable scheduling state at most one full-index run is in
flight. -/
theorem C5_single_flight :
    (∀ (s : RAGState) (outcome : RunOutcome) (strategyEffects : List IndexEffect) (now : ℕ),
      s.indexingInProgress = true →
        indexAllDocuments s outcome strategyEffects now =
          { result := .ok (), stateDuring := s, stateAfter := s,
            effects := [.logWarnSkip] }) ∧
    (∀ s : SchedState, SchedReachable s → s.active ≤ 1) := by
  constructor
  · intro s outcome strategyEffects now h
    simp [indexAllDocuments, h]
  · intro s h
    exact (schedInvariant h).1

/-- Witness for C5 at concrete inputs: a second trigger in a busy state is
the no-op record, and the reachable state after one started run has one
run in flight. -/
theorem C5_single_flight_witness :
    indexAllDocuments { indexingInProgress := true, lastIndexTime := none }
        .success [.clearStore] 7 =
      { result := .ok (),
        stateDuring := { indexingInProgress := true, lastIndexTime := none },
        stateAfter := { indexingInProgress := true, lastIndexTime := none },
        effects := [.logWarnSkip] } ∧
    ({ flag := true, active := 1 } : SchedState).active ≤ 1 := by
  refine ⟨C5_single_flight.1 _ .success [.clearStore] 7 rfl, ?_⟩
  exact C5_single_flight.2 _
    (SchedReachable.step SchedReachable.init
      (SchedStep.triggerStart { flag := false, active := 0 } rfl))

/-- C6 counterexample: a full-index run that fails leaves lastIndexTime
untouched (still none) instead of setting it to the completion time, and
rethrows the failure. -/
theorem C6_counterexample :
    (indexAllDocuments { indexingInProgress := false, lastIndexTime := none }
        (.failure "boom") [] 42).stateAfter.lastIndexTime = none ∧
    (indexAllDocuments { indexingInProgress := false, lastIndexTime := none }
        (.failure "boom") [] 42).result = .error "boom" := by
  exact ⟨rfl, rfl⟩

/-- C6 (amended): every unguarded full-index run raises
indexingInProgress at its start and lowers it on completion whether the
run succeeds or fails, but lastIndexTime is updated to the completion
time only on success; a failing run leaves it unchanged and rethrows. -/
theorem C6_lifecycle (s : RAGState) (outcome : RunOutcome)
    (strategyEffects : List IndexEffect) (now : ℕ)
    (h : s.indexingInProgress = false) :
    (indexAllDocuments s outcome strategyEffects now).stateDuring.indexingInProgress = true ∧
    (indexAllDocuments s outcome strategyEffects now).stateAfter.indexingInProgress = false ∧
    (outcome = .success →
      (indexAllDocuments s outcome strategyEffects now).stateAfter.lastIndexTime = some now ∧
      (indexAllDocuments s outcome strategyEffects now).result = .ok ()) ∧
    (∀ msg, outcome = .failure msg →
      (indexAllDocuments s outcome strategyEffects now).stateAfter.lastIndexTime
          = s.lastIndexTime ∧
      (indexAllDocuments s outcome strategyEffects now).result = .error msg) := by
  refine ⟨?_, ?_, ?_, ?_⟩
  · cases outcome <;> simp [indexAllDocuments, h]
  · cases outcome <;> simp [indexAllDocuments, h]
  · intro hs
    subst hs
    exact ⟨by simp [indexAllDocuments, h], by simp [indexAllDocuments, h]⟩
  · intro msg hmsg
    subst hmsg
    exact ⟨by simp [indexAllDocuments, h], by simp [indexAllDocuments, h]⟩

/-- Witness for C6 at concrete inputs: a successful run from an idle state
shows the raised flag during the run, the lowered flag and the updated
lastIndexTime afterwards. -/
theorem C6_lifecycle_witness :
    ({ indexingInProgress := false, lastIndexTime := none } : RAGState).indexingInProgress
        = false ∧
    (indexAllDocuments { indexingInProgress := false, lastIndexTime := none }
        .success [] 7).stateDuring.indexingInProgress = true ∧
    (indexAllDocuments { indexingInProgress := false, lastIndexTime := none }
        .success [] 7).stateAfter.indexingInProgress = false := by
  have h := C6_lifecycle { indexingInProgress := false, lastIndexTime := none }
    .success [] 7 rfl
  exact ⟨rfl, h.1, h.2.1⟩

/-- A successful insert loop over an open transaction leaves the
committed table untouched and accumulates exactly the batch's upserts in
the transaction snapshot. -/
theorem insertLoop_ok {es : List EmbeddingVector} :
    ∀ {T t : List PgRow} {c2 : PgConn},
      insertLoop { table := T, txn := some t } es = .ok c2 →
      c2.table = T ∧ c2.txn = some (applyBatch t es) := by
  induction es with
  | nil =>
    intro T t c2 h
    simp [insertLoop] at h
    rw [← h]
    exact ⟨rfl, rfl⟩
  | cons e rest ih =>
    intro T t c2 h
    by_cases hok : rowOK (toRow e)
    · simp [insertLoop, execInsert, hok] at h
      have h2 := ih h
      exact ⟨h2.1, by rw [h2.2]; rfl⟩
    · simp [insertLoop, execInsert, hok] at h

/-- C2: storeBatch on an initialized store is atomic: when any row of the
batch fails the call rejects and the store (its table, hence its row
count and contents) is exactly what it was before the call; when the call
succeeds the table is the batch's upserts applied in order. -/
theorem C2_storeBatch_atomic (st : PgStore) (embeddings : List EmbeddingVector)
    (h : st.initialized = true) :
    (∀ (msg : String) (st2 : PgStore),
      PgVectorStore.storeBatch st embeddings = (.error msg, st2) → st2 = st) ∧
    (∀ st2 : PgStore,
      PgVectorStore.storeBatch st embeddings = (.ok (), st2) →
        st2.table = applyBatch st.table embeddings ∧
        st2.initialized = st.initialized ∧ st2.poolOpen = st.poolOpen) := by
  have hinit : ensureInitializedCheck st = .ok () := by
    simp [ensureInitializedCheck, h]
  by_cases hemp : embeddings.isEmpty
  · have hnil : embeddings = [] := List.isEmpty_iff.mp hemp
    subst hnil
    constructor
    · intro msg st2 hrun
      simp [PgVectorStore.storeBatch, hinit] at hrun
    · intro st2 hrun
      simp [PgVectorStore.storeBatch, hinit] at hrun
      rw [← hrun]
      exact ⟨rfl, rfl, rfl⟩
  · by_cases hpool : st.poolOpen
    · have hconn : poolConnect st = .ok () := by simp [poolConnect, hpool]
      constructor
      · intro msg st2 hrun
        simp [PgVectorStore.storeBatch, hinit, hemp, hconn] at hrun
        cases hloop : insertLoop (execBegin { table := st.table, txn := none }) embeddings with
        | ok c2 =>
          rw [hloop] at hrun
          simp at hrun
        | error msg2 =>
          rw [hloop] at hrun
          simp at hrun
          rw [← hrun.2]
          rfl
      · intro st2 hrun
        simp [PgVectorStore.storeBatch, hinit, hemp, hconn] at hrun
        cases hloop : insertLoop (execBegin { table := st.table, txn := none }) embeddings with
        | error msg2 =>
          rw [hloop] at hrun
          simp at hrun
        | ok c2 =>
          rw [hloop] at hrun
          simp at hrun
          have hloop2 : insertLoop { table := st.table, txn := some st.table } embeddings
              = .ok c2 := hloop
          have hspec := insertLoop_ok hloop2
          rw [← hrun]
          refine ⟨?_, rfl, rfl⟩
          show (execCommit c2).table = applyBatch st.table embeddings
          rw [execCommit, hspec.2]
    · have hconn : poolConnect st = .error poolEndedMsg := by simp [poolConnect, hpool]
      constructor
      · intro msg st2 hrun
        simp [PgVectorStore.storeBatch, hinit, hemp, hconn] at hrun
        exact hrun.2.symm
      · intro st2 hrun
        simp [PgVectorStore.storeBatch, hinit, hemp, hconn] at hrun

set_option maxRecDepth 20000 in
/-- Witness for C2 at the specification's scenario: a batch of two valid
chunks and one chunk violating the source CHECK constraint against the
freshly initialized empty store; the store is initialized, the call
rejects with the constraint error, and the store afterwards is unchanged
(0 rows committed). -/
theorem C2_storeBatch_atomic_witness :
    emptyOpenStore.initialized = true ∧
    (∀ st2 : PgStore,
      PgVectorStore.storeBatch emptyOpenStore badBatch =
        (.error "insert or update on table embeddings violates a constraint", st2) →
      st2 = emptyOpenStore) ∧
    PgVectorStore.storeBatch emptyOpenStore badBatch =
      (.error "insert or update on table embeddings violates a constraint", emptyOpenStore) := by
  refine ⟨rfl, fun st2 hrun =>
    (C2_storeBatch_atomic emptyOpenStore badBatch rfl).1 _ st2 hrun, ?_⟩
  rfl

/-- C9 counterexample: on a store that was successfully initialized and
then closed, count() fails with the ended-pool error of the connection
pool, which is not the NotInitializedError message, contradicting the
claim that every post-close call fails with NotInitializedError. -/
theorem C9_counterexample :
    PgVectorStore.count (PgVectorStore.close emptyOpenStore) none = .error poolEndedMsg ∧
      poolEndedMsg ≠ notInitMsg := by
  exact ⟨rfl, by decide⟩

/-- C9 (amended): close() never clears the initialized flag, so a call
made after close() passes the ensureInitialized check and fails while
acquiring a connection from the ended pool, with the pool error rather
than NotInitializedError; a storeBatch of an empty batch after close even
returns successfully (its early return precedes the connection). The
NotInitializedError message is raised exactly by calls made before a
successful initialize(). -/
theorem C9_afterClose_pool_error (st : PgStore) (h : st.initialized = true) :
    (PgVectorStore.count (PgVectorStore.close st) none = .error poolEndedMsg) ∧
    (∀ (queryVector : List ℝ) (topK : ℕ) (entityId : Option String),
      PgVectorStore.search (PgVectorStore.close st) queryVector topK entityId
        = .error poolEndedMsg) ∧
    (∀ e : EmbeddingVector,
      PgVectorStore.store (PgVectorStore.close st) e
        = (.error poolEndedMsg, PgVectorStore.close st)) ∧
    (∀ entityId : Option String,
      PgVectorStore.clear (PgVectorStore.close st) entityId
        = (.error poolEndedMsg, PgVectorStore.close st)) ∧
    (∀ embeddings : List EmbeddingVector, embeddings ≠ [] →
      PgVectorStore.storeBatch (PgVectorStore.close st) embeddings
        = (.error poolEndedMsg, PgVectorStore.close st)) ∧
    (PgVectorStore.storeBatch (PgVectorStore.close st) [] = (.ok (), PgVectorStore.close st)) ∧
    poolEndedMsg ≠ notInitMsg ∧
    (∀ st0 : PgStore, st0.initialized = false →
      PgVectorStore.count st0 none = .error notInitMsg ∧
      ∀ embeddings : List EmbeddingVector,
        PgVectorStore.storeBatch st0 embeddings = (.error notInitMsg, st0)) := by
  have hinit : ensureInitializedCheck (PgVectorStore.close st) = .ok () := by
    simp [ensureInitializedCheck, PgVectorStore.close, h]
  have hconn : poolConnect (PgVectorStore.close st) = .error poolEndedMsg := by
    simp [poolConnect, PgVectorStore.close]
  refine ⟨?_, ?_, ?_, ?_, ?_, ?_, by decide, ?_⟩
  · simp [PgVectorStore.count, hinit, hconn]
  · intro queryVector topK entityId
    simp [PgVectorStore.search, hinit, hconn]
  · intro e
    simp [PgVectorStore.store, hinit, hconn]
  · intro entityId
    simp [PgVectorStore.clear, hinit, hconn]
  · intro embeddings hne
    have : embeddings.isEmpty = false := by
      cases embeddings with
      | nil => exact absurd rfl hne
      | cons a l => rfl
    simp [PgVectorStore.storeBatch, hinit, hconn, this]
  · simp [PgVectorStore.storeBatch, hinit]
  · intro st0 h0
    have hinit0 : ensureInitializedCheck st0 = .error notInitMsg := by
      simp [ensureInitializedCheck, h0]
    exact ⟨by simp [PgVectorStore.count, hinit0],
      fun embeddings => by simp [PgVectorStore.storeBatch, hinit0]⟩

/-- Witness for C9 at the concrete initialized store: after close(),
count fails with the ended-pool error and an empty storeBatch succeeds. -/
theorem C9_afterClose_pool_error_witness :
    emptyOpenStore.initialized = true ∧
    PgVectorStore.count (PgVectorStore.close emptyOpenStore) none = .error poolEndedMsg ∧
    PgVectorStore.storeBatch (PgVectorStore.close emptyOpenStore) []
      = (.ok (), PgVectorStore.close emptyOpenStore) := by
  have h := C9_afterClose_pool_error emptyOpenStore rfl
  exact ⟨rfl, h.1, h.2.2.2.2.2.1⟩

/-- With a non-positive stride the chunk loop never terminates: from any
index still inside the word list, every amount of fuel is exhausted. -/
theorem chunkLoop_nonpos_stride (words : List String) (chunkSize chunkOverlap : ℕ)
    (entityId entityName source : String)
    (hstride : (chunkSize : ℤ) - (chunkOverlap : ℤ) ≤ 0) :
    ∀ (fuel : ℕ) (currentIndex : ℤ) (chunkIndex : ℕ) (acc : List DocumentChunk),
      currentIndex < (words.length : ℤ) →
      chunkLoop words chunkSize chunkOverlap entityId entityName source
        fuel currentIndex chunkIndex acc = none := by
  intro fuel
  induction fuel with
  | zero =>
    intro currentIndex chunkIndex acc hci
    rw [chunkLoop]
    simp [hci]
  | succ f ih =>
    intro currentIndex chunkIndex acc hci
    rw [chunkLoop]
    simp only [hci, if_true]
    have hnext : currentIndex + ((chunkSize : ℤ) - (chunkOverlap : ℤ)) < (words.length : ℤ) := by
      omega
    split
    · exact ih _ _ _ hnext
    · exact ih _ _ _ hnext

/-- C8: the claim's rejection does not happen. Loading a configuration
with chunkSize = chunkOverlap = 50 (stride 0) succeeds with no
configuration error, the loaded values reach chunkDocument unchanged, and
on any nonempty word list the chunk loop with that configuration
exhausts every amount of fuel: the source while loop never terminates. -/
theorem C8_degenerate_stride_accepted_and_loops :
    loadConfig raw5050 = .ok cfg5050 ∧
    cfg5050.chunkSize = 50 ∧ cfg5050.chunkOverlap = 50 ∧
    (∀ fuel : ℕ,
      chunkLoop ["alpha", "beta"] 50 50 "component:default/sample" "sample" "catalog"
        fuel 0 0 [] = none) ∧
    chunkDocumentWords ["alpha", "beta"] 50 50 "component:default/sample" "sample" "catalog"
      = none := by
  have hdiv : ∀ fuel : ℕ,
      chunkLoop ["alpha", "beta"] 50 50 "component:default/sample" "sample" "catalog"
        fuel 0 0 [] = none := by
    intro fuel
    exact chunkLoop_nonpos_stride _ 50 50 _ _ _ (by norm_num) fuel 0 0 [] (by norm_num)
  refine ⟨rfl, rfl, rfl, hdiv, ?_⟩
  rw [chunkDocumentWords]
  rw [show (["alpha", "beta"] : List String).length = 2 from rfl, hdiv 2]

/-- An element on which the predicate fails survives dropWhile. -/
theorem mem_dropWhile_of_not {α : Type} {p : α → Bool} {l : List α} {c : α}
    (hc : c ∈ l) (hp : ¬p c) : c ∈ l.dropWhile p := by
  have hsplit := List.takeWhile_append_dropWhile (p := p) (l := l)
  rw [← hsplit] at hc
  rcases List.mem_append.mp hc with htake | hdrop
  · exact absurd (List.mem_takeWhile_imp htake) hp
  · exact hdrop

/-- A string containing a non-whitespace character has nonempty trim. -/
theorem jsTrim_length_pos {s : String} {c : Char}
    (hc : c ∈ s.data) (hw : ¬c.isWhitespace) : 0 < (jsTrim s).length := by
  rw [jsTrim, String.length_mk]
  rw [List.length_pos]
  intro hnil
  rw [List.reverse_eq_nil_iff, List.dropWhile_eq_nil_iff] at hnil
  have hmem : c ∈ s.data.dropWhile Char.isWhitespace := mem_dropWhile_of_not hc hw
  have hmem2 : c ∈ (s.data.dropWhile Char.isWhitespace).reverse := by
    rw [List.mem_reverse]; exact hmem
  exact hw (hnil c hmem2)

/-- The character list of a joined nonempty word sequence starts with the
first word, followed by a space and the rest of the join. -/
theorem joinSpace_data_cons (w : String) (ws : List String) (h : ws ≠ []) :
    (joinSpace (w :: ws)).data = w.data ++ ' ' :: (joinSpace ws).data := by
  cases ws with
  | nil => exact absurd rfl h
  | cons w2 ws2 =>
    show (w ++ " " ++ joinSpace (w2 :: ws2)).data = _
    rw [String.data_append, String.data_append]
    simp

/-- The first word of a join of nonempty whitespace-free words witnesses a
non-whitespace character in the joined string. -/
theorem joinSpace_has_sound_char {ws : List String} (hne : ws ≠ [])
    (hwf : ∀ w ∈ ws, w ≠ "" ∧ ∀ c ∈ w.data, ¬c.isWhitespace) :
    ∃ c ∈ (joinSpace ws).data, ¬c.isWhitespace := by
  cases ws with
  | nil => exact absurd rfl hne
  | cons w ws2 =>
    have hw := hwf w (List.mem_cons_self w ws2)
    have hwdata : w.data ≠ [] := by
      intro hnil
      exact hw.1 (String.ext hnil)
    cases hdata : w.data with
    | nil => exact absurd hdata hwdata
    | cons c cs =>
      refine ⟨c, ?_, hw.2 c (by rw [hdata]; exact List.mem_cons_self c cs)⟩
      cases ws2 with
      | nil => show c ∈ w.data; rw [hdata]; exact List.mem_cons_self c cs
      | cons w3 ws3 =>
        rw [joinSpace_data_cons w (w3 :: ws3) (by simp)]
        rw [hdata]
        exact List.mem_append_left _ (List.mem_cons_self c cs)

/-- Splitting a whitespace-free character run: the whole run becomes one
word appended to the pending accumulator. -/
theorem splitSpacesAux_no_ws (cs : List Char) :
    ∀ acc : List Char, (∀ c ∈ cs, ¬c.isWhitespace) → (acc ≠ [] ∨ cs ≠ []) →
      splitSpacesAux cs acc = [acc.reverse ++ cs] := by
  induction cs with
  | nil =>
    intro acc h hne
    have hacc : acc ≠ [] := by
      rcases hne with h1 | h2
      · exact h1
      · exact absurd rfl h2
    have : acc.isEmpty = false := by
      cases acc with
      | nil => exact absurd rfl hacc
      | cons a l => rfl
    simp [splitSpacesAux, this]
  | cons c cs2 ih =>
    intro acc h hne
    have hc : c.isWhitespace = false := by
      have := h c (List.mem_cons_self c cs2)
      exact Bool.not_eq_true _ ▸ eq_false_of_ne_true (by simpa using this)
    rw [splitSpacesAux, hc]
    simp only [Bool.false_eq_true, if_false]
    rw [ih (c :: acc) (fun x hx => h x (List.mem_cons_of_mem c hx)) (.inl (by simp))]
    simp

/-- Splitting a whitespace-free word followed by a space: the word closes
the pending accumulator and splitting restarts after the space. -/
theorem splitSpacesAux_word_space (w : List Char) :
    ∀ (acc tail : List Char), (∀ c ∈ w, ¬c.isWhitespace) → w ≠ [] →
      splitSpacesAux (w ++ ' ' :: tail) acc
        = (acc.reverse ++ w) :: splitSpacesAux tail [] := by
  induction w with
  | nil =>
    intro acc tail h hne
    exact absurd rfl hne
  | cons c w2 ih =>
    intro acc tail h hne
    have hc : c.isWhitespace = false := by
      have := h c (List.mem_cons_self c w2)
      exact Bool.not_eq_true _ ▸ eq_false_of_ne_true (by simpa using this)
    rw [List.cons_append, splitSpacesAux, hc]
    simp only [Bool.false_eq_true, if_false]
    cases w2 with
    | nil =>
      show splitSpacesAux (' ' :: tail) (c :: acc) = _
      rw [splitSpacesAux]
      simp
    | cons c3 w3 =>
      rw [ih (c :: acc) tail (fun x hx => h x (List.mem_cons_of_mem c hx)) (by simp)]
      simp

/-- Reading the joined content of a chunk back as words recovers exactly
the word list that was joined, for nonempty whitespace-free words. -/
theorem splitWhitespace_joinSpace {ws : List String}
    (hwf : ∀ w ∈ ws, w ≠ "" ∧ ∀ c ∈ w.data, ¬c.isWhitespace) :
    splitWhitespace (joinSpace ws) = ws := by
  induction ws with
  | nil => rfl
  | cons w ws2 ih =>
    have hw := hwf w (List.mem_cons_self w ws2)
    have hwdata : w.data ≠ [] := by
      intro hnil
      exact hw.1 (String.ext hnil)
    cases ws2 with
    | nil =>
      show splitWhitespace (joinSpace [w]) = [w]
      rw [show joinSpace [w] = w from rfl, splitWhitespace,
        splitSpacesAux_no_ws w.data [] hw.2 (.inr hwdata)]
      simp
    | cons w3 ws3 =>
      rw [splitWhitespace, joinSpace_data_cons w (w3 :: ws3) (by simp),
        splitSpacesAux_word_space w.data [] (joinSpace (w3 :: ws3)).data hw.2 hwdata]
      have ih2 := ih (fun x hx => hwf x (List.mem_cons_of_mem w hx))
      rw [splitWhitespace] at ih2
      simp [ih2]

/-- The slice taken at loop iteration k equals the k-th word window, for
an in-range window start. -/
theorem jsSlice_window (words : List String) (chunkSize stride k : ℕ)
    (hlt : ((k * stride : ℕ) : ℤ) < (words.length : ℤ)) :
    jsSlice words ((k * stride : ℕ) : ℤ) (((k * stride : ℕ) : ℤ) + (chunkSize : ℤ))
      = windowAt words chunkSize stride k := by
  rw [jsSlice, windowAt]
  have h1 : ¬((k * stride : ℕ) : ℤ) < 0 := by
    exact not_lt.mpr (Int.natCast_nonneg _)
  have h2 : ¬(((k * stride : ℕ) : ℤ) + (chunkSize : ℤ)) < 0 := by
    have := Int.natCast_nonneg (k * stride)
    have := Int.natCast_nonneg chunkSize
    omega
  simp only [h1, h2, if_false]
  have hs : (min ((k * stride : ℕ) : ℤ) ((words.length : ℕ) : ℤ)).toNat = k * stride := by
    omega
  have he : ((min (((k * stride : ℕ) : ℤ) + (chunkSize : ℤ)) ((words.length : ℕ) : ℤ))
      - min ((k * stride : ℕ) : ℤ) ((words.length : ℕ) : ℤ)).toNat
      = min (k * stride + chunkSize) words.length - k * stride := by
    omega
  rw [hs, he, List.take_eq_take]
  rw [List.length_drop]
  omega

/-- Every word of a window is a word of the original list. -/
theorem windowAt_subset {words : List String} {chunkSize stride k : ℕ} :
    ∀ w ∈ windowAt words chunkSize stride k, w ∈ words := by
  intro w hw
  rw [windowAt] at hw
  exact List.drop_subset _ words (List.take_subset _ _ hw)

/-- An in-range window with a positive size is nonempty. -/
theorem windowAt_ne_nil (words : List String) (chunkSize stride k : ℕ)
    (hW : 0 < chunkSize) (hlt : k * stride < words.length) :
    windowAt words chunkSize stride k ≠ [] := by
  rw [windowAt]
  intro hnil
  have hlen := congrArg List.length hnil
  rw [List.length_take, List.length_drop] at hlen
  simp at hlen
  omega

/-- Runs of the chunk loop that terminate produce exactly the closed-form
window chunk list: starting at iteration k with accumulator acc, the
result extends acc with the windows from k on. Requires a positive stride
and a well-formed word list (so no window is skipped by the trim guard). -/
theorem chunkLoop_spec (words : List String) (chunkSize chunkOverlap : ℕ)
    (entityId entityName source : String)
    (hO : chunkOverlap < chunkSize) (hwf : WordsWF words) :
    ∀ (fuel k : ℕ) (acc res : List DocumentChunk),
      chunkLoop words chunkSize chunkOverlap entityId entityName source fuel
        ((k * (chunkSize - chunkOverlap) : ℕ) : ℤ) k acc = some res →
      res = acc ++ chunksSpec words chunkSize chunkOverlap entityId entityName source fuel k := by
  intro fuel
  induction fuel with
  | zero =>
    intro k acc res h
    rw [chunkLoop] at h
    by_cases hlt : ((k * (chunkSize - chunkOverlap) : ℕ) : ℤ) < (words.length : ℤ)
    · rw [if_pos hlt] at h
      exact absurd h (by simp)
    · rw [if_neg hlt] at h
      rw [chunksSpec, List.append_nil]
      exact (Option.some_injective _ h).symm
  | succ f ih =>
    intro k acc res h
    by_cases hlt : ((k * (chunkSize - chunkOverlap) : ℕ) : ℤ) < (words.length : ℤ)
    · have hltn : k * (chunkSize - chunkOverlap) < words.length := by exact_mod_cast hlt
      have hwin := jsSlice_window words chunkSize (chunkSize - chunkOverlap) k hlt
      have hnonempty := windowAt_ne_nil words chunkSize (chunkSize - chunkOverlap) k
        (by omega) hltn
      obtain ⟨c, hcmem, hcns⟩ := joinSpace_has_sound_char hnonempty
        (fun w hw => hwf w (windowAt_subset w hw))
      have hguard := jsTrim_length_pos hcmem hcns
      rw [chunkLoop, if_pos hlt] at h
      simp only [hwin] at h
      rw [if_pos hguard] at h
      have hidx : (((k * (chunkSize - chunkOverlap) : ℕ)) : ℤ)
          + ((chunkSize : ℤ) - (chunkOverlap : ℤ))
          = ((((k + 1) * (chunkSize - chunkOverlap) : ℕ)) : ℤ) := by
        rw [Nat.cast_mul, Nat.cast_mul, Nat.cast_sub hO.le]
        push_cast
        ring
      rw [hidx] at h
      have h2 := ih (k + 1) _ res h
      rw [h2, chunksSpec, if_pos hltn]
      simp [windowChunk, List.append_assoc]
    · rw [chunkLoop, if_neg hlt] at h
      have hltn : ¬k * (chunkSize - chunkOverlap) < words.length := by
        intro hcontra
        exact hlt (by exact_mod_cast hcontra)
      rw [chunksSpec, if_neg hltn, List.append_nil]
      exact (Option.some_injective _ h).symm

/-- The chunk list chunkDocument returns under a positive stride over a
well-formed word list: the closed-form window chunks with totalChunks
back-filled. -/
theorem chunkDocumentWords_eq (words : List String) (chunkSize chunkOverlap : ℕ)
    (entityId entityName source : String)
    (hO : chunkOverlap < chunkSize) (hwf : WordsWF words) {chunks : List DocumentChunk}
    (h : chunkDocumentWords words chunkSize chunkOverlap entityId entityName source
      = some chunks) :
    chunks = (chunksSpec words chunkSize chunkOverlap entityId entityName source
        words.length 0).map fun c =>
      { c with metadata := { c.metadata with
          totalChunks := (chunksSpec words chunkSize chunkOverlap entityId entityName source
            words.length 0).length } } := by
  rw [chunkDocumentWords] at h
  cases hloop : chunkLoop words chunkSize chunkOverlap entityId entityName source
      words.length 0 0 [] with
  | none => rw [hloop] at h; exact absurd h (by simp)
  | some cs =>
    rw [hloop] at h
    simp only [Option.some.injEq] at h
    have hzero : ((0 : ℤ)) = (((0 * (chunkSize - chunkOverlap) : ℕ)) : ℤ) := by simp
    rw [hzero] at hloop
    have hspec := chunkLoop_spec words chunkSize chunkOverlap entityId entityName source
      hO hwf words.length 0 [] cs hloop
    rw [List.nil_append] at hspec
    rw [← h, hspec]

/-- Position i of the closed-form chunk list holds the window chunk of
iteration k + i, which is in range. -/
theorem chunksSpec_getElem (words : List String) (chunkSize chunkOverlap : ℕ)
    (entityId entityName source : String) :
    ∀ (fuel k i : ℕ) {c : DocumentChunk},
      (chunksSpec words chunkSize chunkOverlap entityId entityName source fuel k)[i]?
        = some c →
      c = windowChunk words chunkSize chunkOverlap entityId entityName source (k + i) ∧
        (k + i) * (chunkSize - chunkOverlap) < words.length := by
  intro fuel
  induction fuel with
  | zero =>
    intro k i c h
    rw [chunksSpec] at h
    simp at h
  | succ f ih =>
    intro k i c h
    rw [chunksSpec] at h
    by_cases hlt : k * (chunkSize - chunkOverlap) < words.length
    · rw [if_pos hlt] at h
      cases i with
      | zero =>
        simp at h
        exact ⟨h.symm, by simpa using hlt⟩
      | succ j =>
        rw [List.getElem?_cons_succ] at h
        have h2 := ih (k + 1) j h
        have harith : k + 1 + j = k + (j + 1) := by omega
        rw [harith] at h2
        exact h2
    · rw [if_neg hlt] at h
      simp at h

/-- C7 counterexample: with window 5 and overlap 2 (overlap below window
size) on the four-word input, chunkDocument produces two chunks whose
word lists are [w1, w2, w3, w4] and [w4]; both chunks exist, yet the
trailing 2 words of chunk 0 ([w3, w4]) differ from the leading 2 words of
chunk 1 ([w4]): the chunk before the final one was shorter than a full
window. -/
theorem C7_counterexample :
    (2 : ℕ) < 5 ∧
    (chunkDocumentWords ["w1", "w2", "w3", "w4"] 5 2 "e" "n" "catalog").map
        (fun cs => cs.map fun c => splitWhitespace c.content)
      = some [["w1", "w2", "w3", "w4"], ["w4"]] ∧
    ¬(["w1", "w2", "w3", "w4"].drop (["w1", "w2", "w3", "w4"].length - 2)
        = ["w4"].take 2) := by
  decide

/-- C7 (amended): for every configuration with overlap below window size
and every well-formed word list, whenever chunkDocument returns chunks
and chunk i contains a full window of chunkSize words, the trailing
chunkOverlap words of chunk i equal the leading chunkOverlap words of
chunk i + 1 (whenever chunk i + 1 also exists); the word lists of the two
chunks are the corresponding word windows. -/
theorem C7_consecutive_overlap (words : List String) (chunkSize chunkOverlap : ℕ)
    (entityId entityName source : String) (hO : chunkOverlap < chunkSize)
    (hwf : WordsWF words) (chunks : List DocumentChunk)
    (hrun : chunkDocumentWords words chunkSize chunkOverlap entityId entityName source
      = some chunks)
    (i : ℕ) (c1 c2 : DocumentChunk)
    (h1 : chunks[i]? = some c1) (h2 : chunks[i + 1]? = some c2)
    (hfull : i * (chunkSize - chunkOverlap) + chunkSize ≤ words.length) :
    splitWhitespace c1.content = windowAt words chunkSize (chunkSize - chunkOverlap) i ∧
    splitWhitespace c2.content
      = windowAt words chunkSize (chunkSize - chunkOverlap) (i + 1) ∧
    (splitWhitespace c1.content).length = chunkSize ∧
    (splitWhitespace c1.content).drop ((splitWhitespace c1.content).length - chunkOverlap)
      = (splitWhitespace c2.content).take chunkOverlap := by
  have hchar := chunkDocumentWords_eq words chunkSize chunkOverlap entityId entityName source
    hO hwf hrun
  rw [hchar] at h1 h2
  rw [List.getElem?_map] at h1 h2
  cases hs1 : (chunksSpec words chunkSize chunkOverlap entityId entityName source
      words.length 0)[i]? with
  | none => rw [hs1] at h1; exact absurd h1 (by simp)
  | some d1 =>
  cases hs2 : (chunksSpec words chunkSize chunkOverlap entityId entityName source
      words.length 0)[i + 1]? with
  | none => rw [hs2] at h2; exact absurd h2 (by simp)
  | some d2 =>
  rw [hs1] at h1
  rw [hs2] at h2
  rw [Option.map_some'] at h1 h2
  replace h1 := Option.some.inj h1
  replace h2 := Option.some.inj h2
  obtain ⟨hd1, hlt1⟩ := chunksSpec_getElem words chunkSize chunkOverlap entityId entityName
    source words.length 0 i hs1
  obtain ⟨hd2, hlt2⟩ := chunksSpec_getElem words chunkSize chunkOverlap entityId entityName
    source words.length 0 (i + 1) hs2
  rw [Nat.zero_add] at hd1 hlt1 hd2 hlt2
  have hc1 : c1.content = joinSpace (windowAt words chunkSize (chunkSize - chunkOverlap) i) := by
    rw [← h1, hd1]
    rfl
  have hc2 : c2.content
      = joinSpace (windowAt words chunkSize (chunkSize - chunkOverlap) (i + 1)) := by
    rw [← h2, hd2]
    rfl
  have hwf1 : ∀ w ∈ windowAt words chunkSize (chunkSize - chunkOverlap) i,
      w ≠ "" ∧ ∀ c ∈ w.data, ¬c.isWhitespace :=
    fun w hw => hwf w (windowAt_subset w hw)
  have hwf2 : ∀ w ∈ windowAt words chunkSize (chunkSize - chunkOverlap) (i + 1),
      w ≠ "" ∧ ∀ c ∈ w.data, ¬c.isWhitespace :=
    fun w hw => hwf w (windowAt_subset w hw)
  have hsw1 : splitWhitespace c1.content
      = windowAt words chunkSize (chunkSize - chunkOverlap) i := by
    rw [hc1, splitWhitespace_joinSpace hwf1]
  have hsw2 : splitWhitespace c2.content
      = windowAt words chunkSize (chunkSize - chunkOverlap) (i + 1) := by
    rw [hc2, splitWhitespace_joinSpace hwf2]
  have hlen1 : (windowAt words chunkSize (chunkSize - chunkOverlap) i).length = chunkSize := by
    rw [windowAt, List.length_take, List.length_drop]
    omega
  have hkey : (windowAt words chunkSize (chunkSize - chunkOverlap) i).drop
        (chunkSize - chunkOverlap)
      = (windowAt words chunkSize (chunkSize - chunkOverlap) (i + 1)).take chunkOverlap := by
    rw [windowAt, windowAt, List.drop_take, List.drop_drop, List.take_take]
    have e1 : chunkSize - (chunkSize - chunkOverlap) = chunkOverlap := by omega
    have e2 : i * (chunkSize - chunkOverlap) + (chunkSize - chunkOverlap)
        = (i + 1) * (chunkSize - chunkOverlap) := by ring
    have e3 : min chunkOverlap chunkSize = chunkOverlap := min_eq_left hO.le
    rw [e1, e2, e3]
  refine ⟨hsw1, hsw2, by rw [hsw1, hlen1], ?_⟩
  rw [hsw1, hsw2, hlen1, hkey]

/-- Witness for C7 at concrete inputs: three words, window 2, overlap 1.
Chunk 0 holds a full window, and its trailing word equals the leading
word of chunk 1. -/
theorem C7_consecutive_overlap_witness :
    ((1 : ℕ) < 2) ∧ WordsWF ["a", "b", "c"] ∧
    (splitWhitespace "a b" = windowAt ["a", "b", "c"] 2 (2 - 1) 0 ∧
     splitWhitespace "b c" = windowAt ["a", "b", "c"] 2 (2 - 1) (0 + 1) ∧
     (splitWhitespace "a b").length = 2 ∧
     (splitWhitespace "a b").drop ((splitWhitespace "a b").length - 1)
       = (splitWhitespace "b c").take 1) := by
  have hwf : WordsWF ["a", "b", "c"] := by
    intro w hw
    simp only [List.mem_cons, List.not_mem_nil, or_false] at hw
    rcases hw with rfl | rfl | rfl <;> exact ⟨by decide, by decide⟩
  refine ⟨by decide, hwf, ?_⟩
  exact C7_consecutive_overlap ["a", "b", "c"] 2 1 "e" "n" "catalog" (by decide) hwf
    [{ id := "e-catalog-0", entityId := "e", entityName := "n", content := "a b",
       metadata := { source := "catalog", chunkIndex := 0, totalChunks := 3 } },
     { id := "e-catalog-1", entityId := "e", entityName := "n", content := "b c",
       metadata := { source := "catalog", chunkIndex := 1, totalChunks := 3 } },
     { id := "e-catalog-2", entityId := "e", entityName := "n", content := "c",
       metadata := { source := "catalog", chunkIndex := 2, totalChunks := 3 } }]
    (by decide) 0
    { id := "e-catalog-0", entityId := "e", entityName := "n", content := "a b",
      metadata := { source := "catalog", chunkIndex := 0, totalChunks := 3 } }
    { id := "e-catalog-1", entityId := "e", entityName := "n", content := "b c",
      metadata := { source := "catalog", chunkIndex := 1, totalChunks := 3 } }
    rfl rfl (by decide)

/-- The squared norm accumulated by the similarity loop is nonnegative. -/
theorem dotProduct_self_nonneg (a : List ℝ) : 0 ≤ dotProduct a a := by
  induction a with
  | nil => exact le_refl 0
  | cons x as ih =>
    show 0 ≤ x * x + dotProduct as as
    nlinarith [sq_nonneg x]

/-- Cauchy-Schwarz for the loop's dot product: the square of the dot
product is at most the product of the squared norms. -/
theorem dotProduct_sq_le (a : List ℝ) : ∀ b : List ℝ,
    (dotProduct a b) ^ 2 ≤ dotProduct a a * dotProduct b b := by
  induction a with
  | nil =>
    intro b
    show (0 : ℝ) ^ 2 ≤ 0 * dotProduct b b
    simp
  | cons x as ih =>
    intro b
    cases b with
    | nil =>
      show (0 : ℝ) ^ 2 ≤ dotProduct (x :: as) (x :: as) * 0
      simp
    | cons y bs =>
      show (x * y + dotProduct as bs) ^ 2
        ≤ (x * x + dotProduct as as) * (y * y + dotProduct bs bs)
      have hAB := ih bs
      have hA := dotProduct_self_nonneg as
      have hB := dotProduct_self_nonneg bs
      rcases eq_or_lt_of_le hB with hB0 | hBpos
      · have hD2 : dotProduct as bs ^ 2 = 0 := by nlinarith [sq_nonneg (dotProduct as bs)]
        have hD : dotProduct as bs = 0 := by
          exact pow_eq_zero_iff (two_ne_zero) |>.mp hD2
        rw [hD, ← hB0]
        nlinarith [mul_nonneg hA (mul_self_nonneg y)]
      · nlinarith [sq_nonneg (x * dotProduct bs bs - y * dotProduct as bs),
          mul_nonneg (sub_nonneg.mpr hAB)
            (add_nonneg (mul_self_nonneg y) hB),
          hBpos]

/-- The cosine similarity value always lies in the interval from -1 to 1. -/
theorem cosineSimVal_mem_Icc (a b : List ℝ) :
    -1 ≤ cosineSimVal a b ∧ cosineSimVal a b ≤ 1 := by
  rw [cosineSimVal]
  by_cases hd : Real.sqrt (dotProduct a a) * Real.sqrt (dotProduct b b) = 0
  · simp [hd]
  · simp only [hd, if_false]
    have hA := dotProduct_self_nonneg a
    have hB := dotProduct_self_nonneg b
    have hdnn : 0 ≤ Real.sqrt (dotProduct a a) * Real.sqrt (dotProduct b b) :=
      mul_nonneg (Real.sqrt_nonneg _) (Real.sqrt_nonneg _)
    have hdpos : 0 < Real.sqrt (dotProduct a a) * Real.sqrt (dotProduct b b) :=
      lt_of_le_of_ne hdnn (Ne.symm hd)
    have habs : |dotProduct a b| ≤ Real.sqrt (dotProduct a a) * Real.sqrt (dotProduct b b) := by
      have h1 : |dotProduct a b| = Real.sqrt ((dotProduct a b) ^ 2) :=
        (Real.sqrt_sq_eq_abs _).symm
      rw [h1, ← Real.sqrt_mul hA]
      exact Real.sqrt_le_sqrt (dotProduct_sq_le a b)
    have hq : |dotProduct a b / (Real.sqrt (dotProduct a a) * Real.sqrt (dotProduct b b))|
        ≤ 1 := by
      rw [abs_div, abs_of_pos hdpos]
      exact div_le_one_of_le₀ habs (le_of_lt hdpos)
    have := abs_le.mp hq
    exact this

/-- The for loop of the in-memory search succeeds on dimension-matching
candidates and returns one result per candidate, in order, carrying the
cosine similarity value. -/
theorem computeSims_ok {queryVector : List ℝ} :
    ∀ {candidates : List EmbeddingVector},
      (∀ v ∈ candidates, v.vector.length = queryVector.length) →
      computeSims queryVector candidates
        = .ok (candidates.map fun v =>
            { documentChunk := v.documentChunk,
              similarity := cosineSimVal queryVector v.vector }) := by
  intro candidates
  induction candidates with
  | nil => intro _; rfl
  | cons v rest ih =>
    intro hdim
    have hv : v.vector.length = queryVector.length :=
      hdim v (List.mem_cons_self v rest)
    rw [computeSims, InMemoryVectorStore.cosineSimilarity]
    rw [if_neg (by omega)]
    rw [ih fun w hw => hdim w (List.mem_cons_of_mem v hw)]
    rfl

/-- Results sorted by the ascending-distance order map to results sorted
by descending similarity under the per-row similarity 1 - distance. -/
theorem pairwise_simDesc_of_distAsc {queryVector : List ℝ} {rows : List PgRow}
    (h : List.Pairwise (distAsc queryVector) rows) :
    List.Sorted simDesc (rows.map (pgRowResult queryVector)) := by
  rw [List.Sorted, List.pairwise_map]
  refine h.imp ?_
  intro r1 r2 hr
  show (pgRowResult queryVector r2).similarity ≤ (pgRowResult queryVector r1).similarity
  show 1 - pgCosineDistance queryVector r2.vector ≤ 1 - pgCosineDistance queryVector r1.vector
  exact sub_le_sub_left hr 1

/-- C1: on both VectorStore variants, search returns results sorted by
similarity in non-increasing order, of length at most topK, with every
similarity in the interval from -1 to 1, for stored vectors of the
query's dimension (the persistent store initialized and its pool open). -/
theorem C1_search_ranking (queryVector : List ℝ) (topK : ℕ) (entityId : Option String)
    (vectors : List EmbeddingVector) (st : PgStore)
    (hdim : ∀ v ∈ vectors, v.vector.length = queryVector.length)
    (hinit : st.initialized = true) (hpool : st.poolOpen = true) :
    (∃ results : List SearchResult,
      InMemoryVectorStore.search vectors queryVector topK entityId = .ok results ∧
      List.Sorted simDesc results ∧
      results.length ≤ topK ∧
      ∀ r ∈ results, -1 ≤ r.similarity ∧ r.similarity ≤ 1) ∧
    (∃ results : List SearchResult,
      PgVectorStore.search st queryVector topK entityId = .ok results ∧
      List.Sorted simDesc results ∧
      results.length ≤ topK ∧
      ∀ r ∈ results, -1 ≤ r.similarity ∧ r.similarity ≤ 1) := by
  constructor
  · -- in-memory variant
    rw [InMemoryVectorStore.search.eq_def]
    have hdimf : ∀ v ∈ ((match entityId with
        | some eid => vectors.filter fun v => v.documentChunk.entityId = eid
        | none => vectors : List EmbeddingVector)),
        v.vector.length = queryVector.length := by
      cases entityId with
      | none => exact hdim
      | some eid => exact fun v hv => hdim v (List.mem_of_mem_filter hv)
    simp only [computeSims_ok hdimf]
    refine ⟨_, rfl, ?_, ?_, ?_⟩
    · exact ((List.sorted_insertionSort simDesc _).sublist (List.take_sublist _ _))
    · exact le_trans (List.length_take_le _ _) (le_refl _)
    · intro r hr
      have hr2 : r ∈ (List.map (fun v =>
          { documentChunk := v.documentChunk,
            similarity := cosineSimVal queryVector v.vector : SearchResult }) (match entityId with
          | some eid => vectors.filter fun v => v.documentChunk.entityId = eid
          | none => vectors)) := by
        rw [← List.mem_insertionSort simDesc]
        exact List.take_subset _ _ hr
      obtain ⟨v, _, hv⟩ := List.mem_map.mp hr2
      rw [← hv]
      exact cosineSimVal_mem_Icc queryVector v.vector
  · -- persistent variant
    rw [PgVectorStore.search]
    have hi : ensureInitializedCheck st = .ok () := by simp [ensureInitializedCheck, hinit]
    have hp : poolConnect st = .ok () := by simp [poolConnect, hpool]
    rw [hi, hp]
    letI : DecidableRel (distAsc queryVector) := fun r1 r2 =>
      Real.decidableLE (pgCosineDistance queryVector r1.vector)
        (pgCosineDistance queryVector r2.vector)
    haveI : IsTotal PgRow (distAsc queryVector) := ⟨fun r1 r2 => le_total _ _⟩
    haveI : IsTrans PgRow (distAsc queryVector) := ⟨fun a b c h1 h2 => le_trans h1 h2⟩
    refine ⟨_, rfl, ?_, ?_, ?_⟩
    · rw [PgVectorStore.searchRows.eq_def]
      exact pairwise_simDesc_of_distAsc
        (((List.sorted_insertionSort _ _).sublist (List.take_sublist _ _)))
    · rw [PgVectorStore.searchRows.eq_def]
      rw [List.length_map]
      exact List.length_take_le _ _
    · intro r hr
      rw [PgVectorStore.searchRows.eq_def] at hr
      obtain ⟨row, _, hrow⟩ := List.mem_map.mp hr
      have hsim : r.similarity = cosineSimVal queryVector row.vector := by
        rw [← hrow]
        show 1 - pgCosineDistance queryVector row.vector = _
        rw [pgCosineDistance]
        ring
      rw [hsim]
      exact cosineSimVal_mem_Icc queryVector row.vector

/-- Witness for C1 at concrete inputs: a one-vector in-memory store of
the query's dimension and the freshly initialized empty persistent
store. -/
theorem C1_search_ranking_witness :
    (∀ v ∈ [memWitnessVec], v.vector.length = ([1, 0] : List ℝ).length) ∧
    emptyOpenStore.initialized = true ∧
    emptyOpenStore.poolOpen = true ∧
    ((∃ results : List SearchResult,
        InMemoryVectorStore.search [memWitnessVec] [1, 0] 3 none = .ok results ∧
        List.Sorted simDesc results ∧
        results.length ≤ 3 ∧
        ∀ r ∈ results, -1 ≤ r.similarity ∧ r.similarity ≤ 1) ∧
     (∃ results : List SearchResult,
        PgVectorStore.search emptyOpenStore [1, 0] 3 none = .ok results ∧
        List.Sorted simDesc results ∧
        results.length ≤ 3 ∧
        ∀ r ∈ results, -1 ≤ r.similarity ∧ r.similarity ≤ 1)) := by
  have hdim : ∀ v ∈ [memWitnessVec], v.vector.length = ([1, 0] : List ℝ).length := by
    intro v hv
    rw [List.mem_singleton] at hv
    subst hv
    rfl
  exact ⟨hdim, rfl, rfl,
    C1_search_ranking [1, 0] 3 none [memWitnessVec] emptyOpenStore hdim rfl rfl⟩
